import Mathlib

set_option maxHeartbeats 1000000

/-!
Verification of the eBird map generator (`ebird_map.py`): the text record
extractor, the API record adapter, the coordinate grouper, the color scaler
and the date filters, shallowly embedded over `List Char`, `ℚ` and `ℤ`.

Python floats are modelled by exact rationals (the decimal strings the
program parses are tiny, so zero-tests and 5-decimal rounding agree with the
float semantics), calendar dates by their rata-die day number as an integer.
-/

namespace EbirdMap

/-- Character list of a string literal; all the embedded code works on
`List Char`. -/
def lc (s : String) : List Char := s.toList

/-- ASCII whitespace: what Python `str.strip()` strips and the regex class
`\s` matches on the ASCII inputs at hand. -/
def pySpace (c : Char) : Bool :=
  c = ' ' || c = '\t' || c = '\n' || c = '\r' || c = '\x0b' || c = '\x0c'

/-- ASCII digit, the regex class `\d` on the inputs at hand. -/
def pyDigit (c : Char) : Bool := '0' ≤ c && c ≤ '9'

def isUpperAZ (c : Char) : Bool := 'A' ≤ c && c ≤ 'Z'

def isLowerAZ (c : Char) : Bool := 'a' ≤ c && c ≤ 'z'

/-- Python `str.strip()`: drop leading and trailing whitespace. -/
def pyStrip (l : List Char) : List Char :=
  ((l.dropWhile pySpace).reverse.dropWhile pySpace).reverse

/-- Line-boundary characters of Python `str.splitlines()`. -/
def lineBreakChar (c : Char) : Bool :=
  c = '\n' || c = '\r' || c = '\x0b' || c = '\x0c' || c = '\x1c' || c = '\x1d' ||
  c = '\x1e' || c = '\x85' || c = ' ' || c = ' '

/-- Worker for `splitlinesPy`; `cur` is the current line reversed. -/
def splitlinesGo (cur : List Char) : List Char → List (List Char)
  | [] => if cur = [] then [] else [cur.reverse]
  | '\r' :: '\n' :: r => cur.reverse :: splitlinesGo [] r
  | c :: r =>
    if lineBreakChar c then cur.reverse :: splitlinesGo [] r
    else splitlinesGo (c :: cur) r

/-- Python `str.splitlines()` (no trailing empty line for a trailing break). -/
def splitlinesPy (l : List Char) : List (List Char) := splitlinesGo [] l

/-! The species-header regex

`^(?!- )(.+?)\s+\(([A-Z][a-z].*?)\)\s*(?:\((\d+)\))?\s*(CONFIRMED)?$`
matched with `re.match` against the stripped line, with Python's
leftmost/lazy backtracking semantics spelled out case by case. -/

/-- `\s*(CONFIRMED)?$`: greedy `\s*` never has to backtrack because
`CONFIRMED` does not start with whitespace. -/
def matchTail2 (r : List Char) : Option Bool :=
  let r3 := r.dropWhile pySpace
  if r3 = lc "CONFIRMED" then some true
  else if r3 = [] then some false
  else none

/-- `\((\d+)\)` at the start of the input: the digits and the rest.  Greedy
`\d+` before the literal `)` needs no backtracking. -/
def countGroup (r1 : List Char) : Option (List Char × List Char) :=
  match r1 with
  | '(' :: rest =>
    match rest.takeWhile pyDigit, rest.dropWhile pyDigit with
    | [], _ => none
    | ds, ')' :: r2 => some (ds, r2)
    | _, _ => none
  | _ => none

/-- `\s*(?:\((\d+)\))?\s*(CONFIRMED)?$`: the optional count group is
preferred, but abandoned (Python backtracking) when the rest then fails;
greedy `\s*` before `(` or `C` needs no backtracking. -/
def matchCountConf (r : List Char) : Option (Option (List Char) × Bool) :=
  match countGroup (r.dropWhile pySpace) with
  | some (ds, r2) =>
    match matchTail2 r2 with
    | some b => some (some ds, b)
    | none => (matchTail2 (r.dropWhile pySpace)).map (fun b => (none, b))
  | none => (matchTail2 (r.dropWhile pySpace)).map (fun b => (none, b))

/-- Group 2 after its `[A-Z][a-z]` prefix: lazy `.*?` up to a `)` whose
suffix matches; a `)` whose suffix fails is consumed by `.*?` (`.` matches
everything but a newline). -/
def matchSciTail (acc : List Char) : List Char → Option (List Char × Option (List Char) × Bool)
  | [] => none
  | c :: r =>
    if c = ')' then
      match matchCountConf r with
      | some (cnt, cf) => some (acc.reverse, cnt, cf)
      | none => matchSciTail (c :: acc) r
    else if c = '\n' then none
    else matchSciTail (c :: acc) r

/-- After group 1: `\s+\(([A-Z][a-z]` then the group-2 tail.  Greedy `\s+`
followed by the literal `(` is equivalent to: a leading whitespace character
and a `(` right after the maximal whitespace run. -/
def matchAfterName (s : List Char) : Option (List Char × Option (List Char) × Bool) :=
  match s with
  | [] => none
  | c :: r =>
    if pySpace c then
      match (c :: r).dropWhile pySpace with
      | '(' :: u =>
        match u with
        | a :: b :: v =>
          if isUpperAZ a && isLowerAZ b then
            (matchSciTail [] v).map (fun t => (a :: b :: t.1, t.2.1, t.2.2))
          else none
        | _ => none
      | _ => none
    else none

/-- Lazy group 1 (`.+?`): try every nonempty prefix as group 1, shortest
first; `acc` is the reversed prefix taken so far. -/
def headerSplit (acc : List Char) : List Char → Option (List Char × List Char × Option (List Char) × Bool)
  | [] => none
  | c :: r =>
    if c = '\n' then none
    else
      match matchAfterName r with
      | some t => some ((c :: acc).reverse, t.1, t.2.1, t.2.2)
      | none => headerSplit (c :: acc) r

/-- The full header regex (`(?!- )` is a position-0 lookahead, i.e. a
prefix test).  Returns (group1, group2, optional count group, CONFIRMED?). -/
def matchHeader (line : List Char) : Option (List Char × List Char × Option (List Char) × Bool) :=
  if (lc "- ").isPrefixOf line then none
  else headerSplit [] line

/-! The sighting record and the rest of `parse_sightings` -/

/-- An exact decimal number `man / 10 ^ exp`: the value denoted by a decimal
string such as a captured coordinate or a JSON number.  The program stores
the nearest Python float; for the magnitudes at hand, zero tests and
5-decimal rounding of that float agree with the exact decimal value. -/
structure Dec where
  man : ℤ
  exp : Nat
deriving DecidableEq

/-- The rational value of an exact decimal. -/
def decValue (d : Dec) : ℚ := (d.man : ℚ) / (10 : ℚ) ^ d.exp

/-- The record dict built by `parse_sightings` / `fetch_sightings`. -/
structure Sighting where
  species : List Char
  scientific : List Char
  count : List Char
  confirmed : Bool
  location : List Char
  lat : Option Dec
  lon : Option Dec
  date : List Char
  observer : List Char
  comments : List Char
  checklist : List Char
deriving DecidableEq

/-- The fresh accumulator built at a header line; `m.group(3) or "?"` turns
an absent (or empty, unreachable for `\d+`) count group into `"?"`. -/
def newRecord (h : List Char × List Char × Option (List Char) × Bool) : Sighting :=
  { species := h.1
    scientific := h.2.1
    count := match h.2.2.1 with
             | some ds => if ds = [] then lc "?" else ds
             | none => lc "?"
    confirmed := h.2.2.2
    location := []
    lat := none
    lon := none
    date := []
    observer := []
    comments := []
    checklist := [] }

/-- `re.match(r"- Reported (.+?) by (.+)$", line)` after its 11-character
literal prefix: lazy group 1 stops at the first `" by "` whose remainder is
a nonempty newline-free group 2 (stripped lines contain no newline, so `$`
is end-of-string). -/
def matchReportedTail (acc : List Char) : List Char → Option (List Char × List Char)
  | [] => none
  | c :: r =>
    if c = '\n' then none
    else if (lc " by ").isPrefixOf r && r.drop 4 ≠ [] && !(r.drop 4).contains '\n' then
      some ((c :: acc).reverse, r.drop 4)
    else matchReportedTail (c :: acc) r

/-- Decimal digit run to a natural number. -/
def digitsToNat (ds : List Char) : Nat :=
  ds.foldl (fun n c => 10 * n + (c.toNat - '0'.toNat)) 0

/-- One capture of `(-?\d+\.?\d*)`, greedy, as an exact decimal together
with the rest of the input.  Greedy `\d+\.?\d*` needs no backtracking here:
every shorter attempt leaves a digit (or the dot) where the continuation
expects `,` or nothing. -/
def scanNumber (s : List Char) : Option (Dec × List Char) :=
  let core := fun (t : List Char) =>
    let ds := t.takeWhile pyDigit
    if ds = [] then none
    else
      match t.dropWhile pyDigit with
      | '.' :: t2 =>
        let fs := t2.takeWhile pyDigit
        some (Dec.mk (digitsToNat ds * 10 ^ fs.length + digitsToNat fs) fs.length,
              t2.dropWhile pyDigit)
      | t1 => some (Dec.mk (digitsToNat ds) 0, t1)
  match s with
  | '-' :: t => (core t).map (fun p => (Dec.mk (-p.1.man) p.1.exp, p.2))
  | t => core t

/-- Attempt `q=(-?\d+\.?\d*),(-?\d+\.?\d*)` at the start of `s`. -/
def tryCoords (s : List Char) : Option (Dec × Dec) :=
  match s with
  | 'q' :: '=' :: t =>
    match scanNumber t with
    | some (la, rest) =>
      match rest with
      | ',' :: t2 =>
        match scanNumber t2 with
        | some (lo, _) => some (la, lo)
        | none => none
      | _ => none
    | none => none
  | _ => none

/-- `re.search` of the coordinate pattern: leftmost match wins. -/
def searchCoords : List Char → Option (Dec × Dec)
  | [] => none
  | c :: r =>
    match tryCoords (c :: r) with
    | some v => some v
    | none => searchCoords r

/-- `line.split(":", 1)[-1]`: everything after the first colon (the whole
line when there is none). -/
def afterFirstColon (l : List Char) : List Char :=
  match l.dropWhile (fun c => !(c = ':')) with
  | ':' :: r => r
  | _ => l

/-- `str.strip` with the double-quote character as its argument. -/
def stripQuotes (l : List Char) : List Char :=
  ((l.dropWhile (fun c => c = '"')).reverse.dropWhile (fun c => c = '"')).reverse

/-- `line.lstrip("- ")`: drop leading characters drawn from {-, space}. -/
def lstripDashSpace (l : List Char) : List Char :=
  l.dropWhile (fun c => c = '-' || c = ' ')

def isPre (p : String) (l : List Char) : Bool := (lc p).isPrefixOf l

/-- One metadata line applied to the current accumulator: the elif chain of
`parse_sightings`.  These branches only ever update the accumulator, never
the output list.  The location branch tests `current.get("lat") is None`
(identity with None, not truthiness). -/
def updateCur (cur : Sighting) (line : List Char) : Sighting :=
  if isPre "- Reported " line then
    match matchReportedTail [] (line.drop 11) with
    | some (d, ob) => { cur with date := d, observer := ob }
    | none => cur
  else if isPre "- Map:" line then
    match searchCoords line with
    | some (la, lo) => { cur with lat := some la, lon := some lo }
    | none => cur
  else if isPre "- Checklist:" line then
    { cur with checklist := pyStrip (afterFirstColon line) }
  else if isPre "- Comments:" line then
    { cur with comments := stripQuotes (pyStrip (afterFirstColon line)) }
  else if !isPre "- Media:" line && !isPre "- Map:" line && !isPre "***" line &&
          !isPre "---" line && cur.lat.isNone && isPre "- " line then
    let loc := pyStrip (lstripDashSpace line)
    if !loc.isEmpty && cur.location.isEmpty then { cur with location := loc } else cur
  else cur

/-- Truthiness of `current.get("lat")` for a non-empty accumulator: a float
is falsy exactly when it is (plus or minus) zero, i.e. when the exact
decimal has mantissa zero. -/
def latTruthy (c : Sighting) : Bool :=
  match c.lat with
  | none => false
  | some q => decide (q.man ≠ 0)

/-- `if current.get("lat"): sightings.append(current)`, covering the empty
accumulator (`current = {}`, whose `.get` is None, falsy) as `none`. -/
def flushIf (st : List Sighting × Option Sighting) : List Sighting :=
  match st.2 with
  | some c => if latTruthy c then st.1 ++ [c] else st.1
  | none => st.1

/-- One loop iteration of `parse_sightings` over a raw line. -/
def stepLine (st : List Sighting × Option Sighting) (raw : List Char) :
    List Sighting × Option Sighting :=
  let line := pyStrip raw
  match matchHeader line with
  | some h => (flushIf st, some (newRecord h))
  | none =>
    match st.2 with
    | none => st
    | some cur => (st.1, some (updateCur cur line))

/-- `parse_sightings(body)`: fold the line step over `body.splitlines()`,
then flush the last accumulator under the same truthiness test. -/
def parse_sightings (body : List Char) : List Sighting :=
  flushIf ((splitlinesPy body).foldl stepLine ([], none))

/-! Grouper (`group_sightings`) -/

/-- Round-half-to-even on an exact rational, the rounding of Python
`round`. -/
def roundHalfEven (q : ℚ) : ℤ :=
  let f := ⌊q⌋
  let r := q - f
  if r < 1 / 2 then f
  else if 1 / 2 < r then f + 1
  else if f % 2 = 0 then f else f + 1

/-- Round-half-to-even of the integer fraction `a / b` for positive `b`. -/
def halfEvenDiv (a b : ℤ) : ℤ :=
  let q := Int.ediv a b
  let r := Int.emod a b
  if 2 * r < b then q
  else if b < 2 * r then q + 1
  else if q % 2 = 0 then q else q + 1

/-- Python `round(x, 5)` of an exact decimal, in units of `10 ^ (-5)` (the
rounded values of two coordinates are equal exactly when these integers
are). -/
def roundDec5 (d : Dec) : ℤ :=
  if d.exp ≤ 5 then d.man * 10 ^ (5 - d.exp)
  else halfEvenDiv d.man (10 ^ (d.exp - 5))

/-- `key = (round(s["lat"], 5), round(s["lon"], 5))`, in `10 ^ (-5)` units.
Every record reaching the grouper has both coordinates set, so the `getD`
default is never exercised in the pipeline. -/
def gkey (s : Sighting) : ℤ × ℤ :=
  (roundDec5 (s.lat.getD (Dec.mk 0 0)), roundDec5 (s.lon.getD (Dec.mk 0 0)))

/-- `groups[key].append(s)` on a `defaultdict(list)`: dicts preserve key
insertion order, modelled as an association list. -/
def addToGroups (gs : List ((ℤ × ℤ) × List Sighting)) (k : ℤ × ℤ) (s : Sighting) :
    List ((ℤ × ℤ) × List Sighting) :=
  match gs with
  | [] => [(k, [s])]
  | (k', l) :: t => if k' = k then (k', l ++ [s]) :: t else (k', l) :: addToGroups t k s

def gstep (gs : List ((ℤ × ℤ) × List Sighting)) (s : Sighting) :
    List ((ℤ × ℤ) × List Sighting) :=
  addToGroups gs (gkey s) s

/-- `group_sightings`: the rounded-coordinate dict of record lists. -/
def group_sightings (ss : List Sighting) : List ((ℤ × ℤ) × List Sighting) :=
  ss.foldl gstep []

/-- `groups[key]` (empty when the key is absent). -/
def lookupG (k : ℤ × ℤ) : List ((ℤ × ℤ) × List Sighting) → List Sighting
  | [] => []
  | (k', l) :: t => if k' = k then l else lookupG k t

def keysG (gs : List ((ℤ × ℤ) × List Sighting)) : List (ℤ × ℤ) := gs.map Prod.fst

/-- First occurrences of a key sequence, in encounter order. -/
def firstSeen (l : List (ℤ × ℤ)) : List (ℤ × ℤ) :=
  l.foldl (fun acc k => if k ∈ acc then acc else acc ++ [k]) []

/-! Color scaler (`age_color`) -/

/-- Python `int()` on a float: truncation toward zero. -/
def pyInt (q : ℚ) : ℤ := if q < 0 then -⌊-q⌋ else ⌊q⌋

/-- Python format `{:02x}`: lowercase hex, zero-padded to total width 2, the
sign preceding the padding. -/
def hex02 (i : ℤ) : List Char :=
  let ds := Nat.toDigits 16 i.natAbs
  if i < 0 then '-' :: (List.replicate (1 - ds.length) '0' ++ ds)
  else List.replicate (2 - ds.length) '0' ++ ds

/-- `age_color`: per-channel interpolation from (231,76,60) to (44,62,80)
with Python `int` truncation, rendered as `#rrggbb`. -/
def age_color (f : ℚ) : List Char :=
  let r := pyInt (231 + (44 - 231) * f)
  let g := pyInt (76 + (62 - 76) * f)
  let b := pyInt (60 + (80 - 60) * f)
  '#' :: (hex02 r ++ hex02 g ++ hex02 b)

/-! Dates: `strptime`/`strftime` for the formats the program uses

CPython compiles a strptime format to a regex: `%b` becomes the
case-insensitive month-abbreviation alternation, `%d` becomes
`3[01]|[12]\d|0[1-9]|[1-9]| [1-9]`, `%m` becomes `1[0-2]|0[1-9]|[1-9]`,
`%H` becomes `2[0-3]|[0-1]\d|\d`, `%M` becomes `[0-5]\d|\d`, `%Y` becomes
`\d\d\d\d`, whitespace runs become `\s+`, and the whole input must be
consumed.  Alternations are modelled as ordered candidate lists; greedy
`\s+` needs no backtracking because at most one candidate chain can reach
the end of the input (every alternative is followed by a delimiter no other
alternative of the same field can produce).  The resulting numbers are then
validated exactly as the `datetime` constructor does. -/

structure PyDateTime where
  year : Nat
  month : Nat
  day : Nat
  hour : Nat
  minute : Nat
deriving DecidableEq

def isLeap (y : Nat) : Bool := y % 4 = 0 && (y % 100 ≠ 0 || y % 400 = 0)

def daysInMonth (y m : Nat) : Nat :=
  if m = 2 then (if isLeap y then 29 else 28)
  else if m = 4 || m = 6 || m = 9 || m = 11 then 30
  else 31

/-- Calendar-day count of the months before month `m` of year `y`. -/
def daysBeforeMonth (y m : Nat) : Nat :=
  (List.range (m - 1)).foldl (fun acc i => acc + daysInMonth y (i + 1)) 0

/-- Proleptic-Gregorian day number (0001-01-01 is day 1): the ordinal Python
dates compare and subtract by. -/
def rataDie (y m d : Nat) : ℤ :=
  365 * ((y : ℤ) - 1) + ((y : ℤ) - 1) / 4 - ((y : ℤ) - 1) / 100 +
    ((y : ℤ) - 1) / 400 + (daysBeforeMonth y m : ℤ) + (d : ℤ)

/-- The `datetime(...)` constructor's range validation. -/
def mkDateTime (y m d h mi : Nat) : Option PyDateTime :=
  if 1 ≤ y && y ≤ 9999 && 1 ≤ m && m ≤ 12 && 1 ≤ d && d ≤ daysInMonth y m &&
     h ≤ 23 && mi ≤ 59 then
    some ⟨y, m, d, h, mi⟩
  else none

def digVal (c : Char) : Nat := c.toNat - '0'.toNat

/-- `\s+`: at least one whitespace character, consumed greedily. -/
def eatWs1 (s : List Char) : Option (List Char) :=
  match s with
  | c :: r => if pySpace c then some ((c :: r).dropWhile pySpace) else none
  | [] => none

/-- Candidates of `%d` (`3[01]|[12]\d|0[1-9]|[1-9]| [1-9]`), in alternation
order, as (value, rest) pairs. -/
def dayCands : List Char → List (Nat × List Char)
  | a :: b :: r =>
    (if a = '3' && (b = '0' || b = '1') then [(30 + digVal b, r)] else []) ++
    (if (a = '1' || a = '2') && pyDigit b then [(digVal a * 10 + digVal b, r)] else []) ++
    (if a = '0' && ('1' ≤ b && b ≤ '9') then [(digVal b, r)] else []) ++
    (if '1' ≤ a && a ≤ '9' then [(digVal a, b :: r)] else []) ++
    (if a = ' ' && ('1' ≤ b && b ≤ '9') then [(digVal b, r)] else [])
  | [a] => if '1' ≤ a && a ≤ '9' then [(digVal a, [])] else []
  | [] => []

/-- Candidates of `%H` (`2[0-3]|[0-1]\d|\d`). -/
def hourCands : List Char → List (Nat × List Char)
  | a :: b :: r =>
    (if a = '2' && ('0' ≤ b && b ≤ '3') then [(20 + digVal b, r)] else []) ++
    (if (a = '0' || a = '1') && pyDigit b then [(digVal a * 10 + digVal b, r)] else []) ++
    (if pyDigit a then [(digVal a, b :: r)] else [])
  | [a] => if pyDigit a then [(digVal a, [])] else []
  | [] => []

/-- Candidates of `%M` (`[0-5]\d|\d`). -/
def minuteCands : List Char → List (Nat × List Char)
  | a :: b :: r =>
    (if ('0' ≤ a && a ≤ '5') && pyDigit b then [(digVal a * 10 + digVal b, r)] else []) ++
    (if pyDigit a then [(digVal a, b :: r)] else [])
  | [a] => if pyDigit a then [(digVal a, [])] else []
  | [] => []

/-- Candidates of `%m` (`1[0-2]|0[1-9]|[1-9]`). -/
def monthNumCands : List Char → List (Nat × List Char)
  | a :: b :: r =>
    (if a = '1' && ('0' ≤ b && b ≤ '2') then [(10 + digVal b, r)] else []) ++
    (if a = '0' && ('1' ≤ b && b ≤ '9') then [(digVal b, r)] else []) ++
    (if '1' ≤ a && a ≤ '9' then [(digVal a, b :: r)] else [])
  | [a] => if '1' ≤ a && a ≤ '9' then [(digVal a, [])] else []
  | [] => []

/-- `%Y` (`\d\d\d\d`): exactly four digits. -/
def year4 : List Char → Option (Nat × List Char)
  | a :: b :: c :: d :: r =>
    if pyDigit a && pyDigit b && pyDigit c && pyDigit d then
      some (digVal a * 1000 + digVal b * 100 + digVal c * 10 + digVal d, r)
    else none
  | _ => none

def lcMonths : List (List Char) :=
  [lc "jan", lc "feb", lc "mar", lc "apr", lc "may", lc "jun",
   lc "jul", lc "aug", lc "sep", lc "oct", lc "nov", lc "dec"]

/-- Candidates of `%b`: a case-insensitive three-letter month abbreviation. -/
def monthAbbrCands : List Char → List (Nat × List Char)
  | a :: b :: c :: r =>
    match lcMonths.findIdx? (fun w => w == [a.toLower, b.toLower, c.toLower]) with
    | some i => [(i + 1, r)]
    | none => []
  | _ => []

/-- `datetime.strptime(s, "%b %d, %Y %H:%M")`. -/
def strptime_bdY_HM (s : List Char) : Option PyDateTime :=
  (monthAbbrCands s).findSome? (fun p =>
    (eatWs1 p.2).bind (fun r2 =>
      (dayCands r2).findSome? (fun pd =>
        match pd.2 with
        | ',' :: r4 =>
          (eatWs1 r4).bind (fun r5 =>
            (year4 r5).bind (fun py =>
              (eatWs1 py.2).bind (fun r7 =>
                (hourCands r7).findSome? (fun ph =>
                  match ph.2 with
                  | ':' :: r9 =>
                    (minuteCands r9).findSome? (fun pm =>
                      if pm.2 = [] then mkDateTime py.1 p.1 pd.1 ph.1 pm.1 else none)
                  | _ => none))))
        | _ => none)))

/-- `datetime.strptime(s, "%b %d, %Y")` (time defaults to 00:00). -/
def strptime_bdY (s : List Char) : Option PyDateTime :=
  (monthAbbrCands s).findSome? (fun p =>
    (eatWs1 p.2).bind (fun r2 =>
      (dayCands r2).findSome? (fun pd =>
        match pd.2 with
        | ',' :: r4 =>
          (eatWs1 r4).bind (fun r5 =>
            (year4 r5).bind (fun py =>
              if py.2 = [] then mkDateTime py.1 p.1 pd.1 0 0 else none))
        | _ => none)))

/-- `datetime.strptime(s, "%Y-%m-%d %H:%M")`. -/
def strptime_Ymd_HM (s : List Char) : Option PyDateTime :=
  (year4 s).bind (fun py =>
    match py.2 with
    | '-' :: r2 =>
      (monthNumCands r2).findSome? (fun pm =>
        match pm.2 with
        | '-' :: r4 =>
          (dayCands r4).findSome? (fun pd =>
            (eatWs1 pd.2).bind (fun r6 =>
              (hourCands r6).findSome? (fun ph =>
                match ph.2 with
                | ':' :: r8 =>
                  (minuteCands r8).findSome? (fun pmi =>
                    if pmi.2 = [] then mkDateTime py.1 pm.1 pd.1 ph.1 pmi.1 else none)
                | _ => none)))
        | _ => none)
    | _ => none)

/-- `datetime.strptime(s, "%Y-%m-%d")`. -/
def strptime_Ymd (s : List Char) : Option PyDateTime :=
  (year4 s).bind (fun py =>
    match py.2 with
    | '-' :: r2 =>
      (monthNumCands r2).findSome? (fun pm =>
        match pm.2 with
        | '-' :: r4 =>
          (dayCands r4).findSome? (fun pd =>
            if pd.2 = [] then mkDateTime py.1 pm.1 pd.1 0 0 else none)
        | _ => none)
    | _ => none)

/-- `parse_reported_date`: strip, try `"%b %d, %Y %H:%M"` then
`"%b %d, %Y"`, and return the rata-die ordinal of the `.date()` part. -/
def parse_reported_date (s : List Char) : Option ℤ :=
  match strptime_bdY_HM (pyStrip s) with
  | some dt => some (rataDie dt.year dt.month dt.day)
  | none =>
    match strptime_bdY (pyStrip s) with
    | some dt => some (rataDie dt.year dt.month dt.day)
    | none => none

def monthAbbrs : List (List Char) :=
  [lc "Jan", lc "Feb", lc "Mar", lc "Apr", lc "May", lc "Jun",
   lc "Jul", lc "Aug", lc "Sep", lc "Oct", lc "Nov", lc "Dec"]

def pad2 (n : Nat) : List Char :=
  if n < 10 then '0' :: Nat.toDigits 10 n else Nat.toDigits 10 n

def pad4 (n : Nat) : List Char :=
  let ds := Nat.toDigits 10 n
  List.replicate (4 - ds.length) '0' ++ ds

/-- `dt.strftime("%b %d, %Y %H:%M")`, the fixed display format. -/
def strftimeDisplay (dt : PyDateTime) : List Char :=
  (monthAbbrs.getD (dt.month - 1) (lc "Jan")) ++ ' ' :: pad2 dt.day ++
    ',' :: ' ' :: pad4 dt.year ++ ' ' :: pad2 dt.hour ++ ':' :: pad2 dt.minute

/-! API adapter (`fetch_sightings` record construction) -/

/-- The date branch of the `fetch_sightings` loop: an empty source string is
skipped, otherwise the two formats are tried in order and the first success
is re-rendered; total, with the empty string as the fallback. -/
def formatObsDt (s : List Char) : List Char :=
  if s = [] then []
  else
    match strptime_Ymd_HM s with
    | some dt => strftimeDisplay dt
    | none =>
      match strptime_Ymd s with
      | some dt => strftimeDisplay dt
      | none => []

/-- One JSON observation object, with `none` for an absent key (a JSON
number is an exact decimal). -/
structure Obs where
  lat : Option Dec
  lng : Option Dec
  obsReviewed : Option Bool
  obsValid : Option Bool
  obsDt : List Char
  subId : List Char
  comName : Option (List Char)
  sciName : Option (List Char)
  howMany : Option ℤ
  locName : Option (List Char)
  userDisplayName : Option (List Char)

/-- `str()` of an integer. -/
def intToStr (i : ℤ) : List Char :=
  if i < 0 then '-' :: Nat.toDigits 10 i.natAbs else Nat.toDigits 10 i.natAbs

/-- One iteration of the `fetch_sightings` loop: `none` when either
coordinate is absent (the `continue`), otherwise the built record. -/
def obsToSighting (o : Obs) : Option Sighting :=
  match o.lat, o.lng with
  | some la, some ln =>
    some { species := o.comName.getD (lc "Unknown")
           scientific := o.sciName.getD []
           count := match o.howMany with
                    | some n => if n ≠ 0 then intToStr n else lc "?"
                    | none => lc "?"
           confirmed := o.obsReviewed.getD false && o.obsValid.getD false
           location := o.locName.getD []
           lat := some la
           lon := some ln
           date := formatObsDt o.obsDt
           observer := o.userDisplayName.getD []
           comments := []
           checklist := if o.subId ≠ [] then lc "https://ebird.org/checklist/" ++ o.subId
                        else [] }
  | _, _ => none

/-- The record list `fetch_sightings` assembles from the JSON array. -/
def fetch_records (data : List Obs) : List Sighting := data.filterMap obsToSighting

/-! Date span and day-count filter -/

/-- Python `max` over a list (`none` on the empty list, where Python
raises). -/
def pymax : List ℤ → Option ℤ
  | [] => none
  | x :: xs => some (xs.foldl max x)

def pymin : List ℤ → Option ℤ
  | [] => none
  | x :: xs => some (xs.foldl min x)

/-- The parsed report dates of a record list with the `None`s dropped
(`generate_map` lines 248-249). -/
def reported_dates (ss : List Sighting) : List ℤ :=
  (ss.map (fun s => parse_reported_date s.date)).filterMap id

/-- The else-branch of the span computation:
`(newest - oldest).days if newest and oldest and newest != oldest else 1`. -/
def spanElse (rds : List ℤ) : ℤ :=
  match pymax rds, pymin rds with
  | some n, some o => if n ≠ o then n - o else 1
  | _, _ => 1

/-- The color-scale denominator of `generate_map`: the supplied day count
when truthy and `> 1` (`if days and days > 1`), else the newest-minus-oldest
day difference, else 1. -/
def date_span (days : Option ℤ) (ss : List Sighting) : ℤ :=
  match days with
  | some d => if d ≠ 0 ∧ 1 < d then d else spanElse (reported_dates ss)
  | none => spanElse (reported_dates ss)

/-- A parsed input file as `main` keeps it: its records and the message
send date as a rata-die ordinal (`none` when the header is missing). -/
structure ParsedEml where
  sightings : List Sighting
  sendDate : Option ℤ
deriving DecidableEq

/-- `newest_date = max(e[3] for e in parsed_emls if e[3])`. -/
def newestDate (es : List ParsedEml) : Option ℤ :=
  pymax (es.filterMap (fun e => e.sendDate))

/-- The `--days` cutoff filter of `main`:
`cutoff = newest_date - timedelta(days=args.days - 1)` and keep the emails
with `e[3] and e[3] >= cutoff`. -/
def filterByDays (es : List ParsedEml) (days : ℤ) : List ParsedEml :=
  match newestDate es with
  | some nd =>
    es.filter (fun e =>
      match e.sendDate with
      | some d => decide (nd - (days - 1) ≤ d)
      | none => false)
  | none => es

/-- The records of the surviving emails, in order
(`all_sightings.extend(sightings)`). -/
def survivingSightings (es : List ParsedEml) (days : ℤ) : List Sighting :=
  ((filterByDays es days).map (fun e => e.sightings)).flatten

/-! Concrete inputs and claim-side notions used by the theorems below -/

/-- Counterexample inputs for C5: two emails sent the same (newest) day
whose records' reported dates are nine days apart. -/
def ce5rec (d : String) : Sighting :=
  Sighting.mk (lc "X") (lc "Ab") (lc "?") false [] (some (Dec.mk 1 0)) (some (Dec.mk 2 0))
    (lc d) [] [] []

def ce5es : List ParsedEml :=
  [ParsedEml.mk [ce5rec "Feb 10, 2026"] (some 100),
   ParsedEml.mk [ce5rec "Feb 01, 2026"] (some 100)]

/-- Counterexample input for C1: a record whose map line carries latitude
exactly 0.0. -/
def ce1body : List Char := lc "Bird (Ab cd)\n- Map: q=0.0,10.0"

/-- A stripped line is *recognized* when it matches the header regex, one of
the four metadata prefixes, or the location-line condition (a bullet line
that is not a Media, Map or separator line while coordinates are unset). -/
def recognizedLine (cur : Option Sighting) (l : List Char) : Bool :=
  (matchHeader l).isSome || isPre "- Reported " l || isPre "- Map:" l ||
  isPre "- Checklist:" l || isPre "- Comments:" l ||
  (!isPre "- Media:" l && !isPre "- Map:" l && !isPre "***" l && !isPre "---" l &&
    (match cur with | none => true | some c => c.lat.isNone) && isPre "- " l)

/-- The claimed header-line shape `Name (Genus species) (N) CONFIRMED`. -/
def headerLineFull (name sci cnt : List Char) : List Char :=
  name ++ ' ' :: '(' :: (sci ++ ')' :: ' ' :: '(' :: (cnt ++ ')' :: ' ' :: lc "CONFIRMED"))

/-- The claimed header-line shape without a count group:
`Name (Genus species) CONFIRMED`. -/
def headerLineNC (name sci : List Char) : List Char :=
  name ++ ' ' :: '(' :: (sci ++ ')' :: ' ' :: lc "CONFIRMED")

/-! Helper lemmas -/

theorem le_foldl_max_init (xs : List ℤ) : ∀ x : ℤ, x ≤ xs.foldl max x := by
  induction xs with
  | nil => intro x; exact le_refl x
  | cons z t ih =>
    intro x
    rw [List.foldl_cons]
    exact le_trans (le_max_left x z) (ih (max x z))

theorem le_foldl_max (xs : List ℤ) : ∀ x y : ℤ, y ∈ x :: xs → y ≤ xs.foldl max x := by
  induction xs with
  | nil => intro x y hy; rw [List.mem_singleton] at hy; simp [hy]
  | cons z t ih =>
    intro x y hy
    rw [List.foldl_cons]
    rcases List.mem_cons.mp hy with rfl | hy'
    · exact le_trans (le_max_left y z) (le_foldl_max_init t (max y z))
    · rcases List.mem_cons.mp hy' with rfl | hy''
      · exact le_trans (le_max_right x y) (le_foldl_max_init t (max x y))
      · exact ih (max x z) y (List.mem_cons_of_mem _ hy'')

theorem foldl_max_mem (xs : List ℤ) : ∀ x : ℤ, xs.foldl max x ∈ x :: xs := by
  induction xs with
  | nil => intro x; simp
  | cons z t ih =>
    intro x
    rw [List.foldl_cons]
    rcases List.mem_cons.mp (ih (max x z)) with h | h
    · rw [h]
      rcases max_choice x z with hm | hm <;> rw [hm]
      · exact List.mem_cons_self _ _
      · exact List.mem_cons_of_mem _ (List.mem_cons_self _ _)
    · exact List.mem_cons_of_mem _ (List.mem_cons_of_mem _ h)

theorem pymax_le (l : List ℤ) (m : ℤ) (h : pymax l = some m) : ∀ y ∈ l, y ≤ m := by
  cases l with
  | nil => cases h
  | cons x xs =>
    intro y hy
    have hm : xs.foldl max x = m := Option.some.inj h
    rw [← hm]
    exact le_foldl_max xs x y hy

theorem pymax_mem (l : List ℤ) (m : ℤ) (h : pymax l = some m) : m ∈ l := by
  cases l with
  | nil => cases h
  | cons x xs =>
    have hm : xs.foldl max x = m := Option.some.inj h
    rw [← hm]
    exact foldl_max_mem xs x

theorem ge_foldl_min_init (xs : List ℤ) : ∀ x : ℤ, xs.foldl min x ≤ x := by
  induction xs with
  | nil => intro x; exact le_refl x
  | cons z t ih =>
    intro x
    rw [List.foldl_cons]
    exact le_trans (ih (min x z)) (min_le_left x z)

theorem foldl_min_le (xs : List ℤ) : ∀ x y : ℤ, y ∈ x :: xs → xs.foldl min x ≤ y := by
  induction xs with
  | nil => intro x y hy; rw [List.mem_singleton] at hy; simp [hy]
  | cons z t ih =>
    intro x y hy
    rw [List.foldl_cons]
    rcases List.mem_cons.mp hy with rfl | hy'
    · exact le_trans (ge_foldl_min_init t (min y z)) (min_le_left y z)
    · rcases List.mem_cons.mp hy' with rfl | hy''
      · exact le_trans (ge_foldl_min_init t (min x y)) (min_le_right x y)
      · exact ih (min x z) y (List.mem_cons_of_mem _ hy'')

theorem pymin_le (l : List ℤ) (m : ℤ) (h : pymin l = some m) : ∀ y ∈ l, m ≤ y := by
  cases l with
  | nil => cases h
  | cons x xs =>
    intro y hy
    have hm : xs.foldl min x = m := Option.some.inj h
    rw [← hm]
    exact foldl_min_le xs x y hy

theorem spanElse_ge_one (rds : List ℤ) : 1 ≤ spanElse rds := by
  unfold spanElse
  cases hn : pymax rds with
  | none => exact le_refl 1
  | some n =>
    cases ho : pymin rds with
    | none => exact le_refl 1
    | some o =>
      by_cases hno : n = o
      · simp [hno]
      · have h1 : o ≤ n := pymin_le rds o ho n (pymax_mem rds n hn)
        have h2 : o < n := lt_of_le_of_ne h1 (fun h => hno h.symm)
        simp only [hno, if_true, ne_eq, not_false_eq_true]
        omega

theorem pyInt_eq_floor (q : ℚ) (h : 0 ≤ q) : pyInt q = ⌊q⌋ := by
  unfold pyInt
  rw [if_neg (not_lt.mpr h)]

/-- The channel formulas of `age_color` rewritten with floors, valid on
`[0, 1]` where all three channels are nonnegative. -/
theorem age_color_floor (f : ℚ) (h0 : 0 ≤ f) (h1 : f ≤ 1) :
    age_color f =
      '#' :: (hex02 ⌊(231 - 187 * f : ℚ)⌋ ++ hex02 ⌊(76 - 14 * f : ℚ)⌋ ++
        hex02 ⌊(60 + 20 * f : ℚ)⌋) := by
  have e1 : (231 + (44 - 231) * f : ℚ) = 231 - 187 * f := by ring
  have e2 : (76 + (62 - 76) * f : ℚ) = 76 - 14 * f := by ring
  have e3 : (60 + (80 - 60) * f : ℚ) = 60 + 20 * f := by ring
  have p1 : (0 : ℚ) ≤ 231 - 187 * f := by linarith
  have p2 : (0 : ℚ) ≤ 76 - 14 * f := by linarith
  have p3 : (0 : ℚ) ≤ 60 + 20 * f := by linarith
  unfold age_color
  rw [e1, e2, e3, pyInt_eq_floor _ p1, pyInt_eq_floor _ p2, pyInt_eq_floor _ p3]

/-! Claims -/

/-- Claim C2 (corrected): the endpoint colors are as specified, but each
channel is the Python-`int` truncation (= floor on the nonnegative values
arising for fractions in `[0, 1]`) of the interpolated value, not its
rounding. -/
theorem c2_truncated_channels :
    age_color 0 = lc "#e74c3c" ∧ age_color 1 = lc "#2c3e50" ∧
    ∀ f : ℚ, 0 ≤ f → f ≤ 1 →
      age_color f =
        '#' :: (hex02 ⌊(231 - 187 * f : ℚ)⌋ ++ hex02 ⌊(76 - 14 * f : ℚ)⌋ ++
          hex02 ⌊(60 + 20 * f : ℚ)⌋) := by
  refine ⟨?_, ?_, fun f h0 h1 => age_color_floor f h0 h1⟩
  · rw [age_color_floor 0 le_rfl (by norm_num)]
    norm_num
    decide
  · rw [age_color_floor 1 zero_le_one le_rfl]
    norm_num
    decide

theorem c2_truncated_channels_witness :
    (0 : ℚ) ≤ 1 / 2 ∧ (1 / 2 : ℚ) ≤ 1 ∧
      age_color (1 / 2) =
        '#' :: (hex02 ⌊(231 - 187 * (1 / 2 : ℚ))⌋ ++ hex02 ⌊(76 - 14 * (1 / 2 : ℚ))⌋ ++
          hex02 ⌊(60 + 20 * (1 / 2 : ℚ))⌋) :=
  ⟨by norm_num, by norm_num,
    c2_truncated_channels.2.2 (1 / 2) (by norm_num) (by norm_num)⟩

/-- Claim C2 counterexample: at fraction 1/2 the code produces `#894546`
(red channel 137 = int(137.5)), while the claimed per-channel rounding gives
red channel round(137.5) = 138, i.e. `#8a4546`. -/
theorem c2_not_rounded :
    age_color (1 / 2) = lc "#894546" ∧
    roundHalfEven (231 + (44 - 231) * (1 / 2 : ℚ)) = 138 ∧
    lc "#894546" ≠
      '#' :: (hex02 138 ++ hex02 (roundHalfEven (76 + (62 - 76) * (1 / 2 : ℚ))) ++
        hex02 (roundHalfEven (60 + (80 - 60) * (1 / 2 : ℚ)))) := by
  have h2 : roundHalfEven (231 + (44 - 231) * (1 / 2 : ℚ)) = 138 := by
    have he : (231 + (44 - 231) * (1 / 2 : ℚ)) = 275 / 2 := by norm_num
    rw [he]
    unfold roundHalfEven
    norm_num
  have h3 : roundHalfEven (76 + (62 - 76) * (1 / 2 : ℚ)) = 69 := by
    have he : (76 + (62 - 76) * (1 / 2 : ℚ)) = 69 := by norm_num
    rw [he]
    unfold roundHalfEven
    norm_num
  have h4 : roundHalfEven (60 + (80 - 60) * (1 / 2 : ℚ)) = 70 := by
    have he : (60 + (80 - 60) * (1 / 2 : ℚ)) = 70 := by norm_num
    rw [he]
    unfold roundHalfEven
    norm_num
  refine ⟨?_, h2, ?_⟩
  · rw [age_color_floor (1 / 2) (by norm_num) (by norm_num)]
    norm_num
    decide
  · rw [h3, h4]
    decide

/-- Claim C9 (confirmed): the color-scale denominator is always at least 1;
a supplied day count greater than 1 is used as is; otherwise the
newest-minus-oldest difference is used when the extremes differ, and the
span is 1 when no dates parse. -/
theorem c9_span_floor :
    (∀ (days : Option ℤ) (ss : List Sighting), 1 ≤ date_span days ss) ∧
    (∀ (d : ℤ) (ss : List Sighting), 1 < d → date_span (some d) ss = d) ∧
    (∀ (ss : List Sighting) (n o : ℤ), pymax (reported_dates ss) = some n →
      pymin (reported_dates ss) = some o → n ≠ o →
      date_span none ss = n - o) ∧
    (∀ ss : List Sighting, reported_dates ss = [] → date_span none ss = 1) := by
  refine ⟨?_, ?_, ?_, ?_⟩
  · intro days ss
    cases days with
    | none => exact spanElse_ge_one _
    | some d =>
      show 1 ≤ if d ≠ 0 ∧ 1 < d then d else spanElse (reported_dates ss)
      by_cases hd : d ≠ 0 ∧ 1 < d
      · rw [if_pos hd]; omega
      · rw [if_neg hd]; exact spanElse_ge_one _
  · intro d ss hd
    show (if d ≠ 0 ∧ 1 < d then d else spanElse (reported_dates ss)) = d
    rw [if_pos ⟨by omega, hd⟩]
  · intro ss n o hn ho hno
    show spanElse (reported_dates ss) = n - o
    unfold spanElse
    rw [hn, ho]
    show (if n ≠ o then n - o else 1) = n - o
    rw [if_pos hno]
  · intro ss h
    show spanElse (reported_dates ss) = 1
    unfold spanElse
    rw [h]
    rfl

theorem c9_span_floor_witness :
    (1 : ℤ) ≤ date_span (some 3) [] ∧ date_span (some 3) [] = 3 :=
  ⟨c9_span_floor.1 (some 3) [], c9_span_floor.2.1 3 [] (by norm_num)⟩

/-- Claim C7 (confirmed): a produced API record is confirmed exactly when both
`obsReviewed` and `obsValid` are present and true. -/
theorem c7_confirmed_and :
    ∀ (o : Obs) (s : Sighting), obsToSighting o = some s →
      (s.confirmed = true ↔ o.obsReviewed = some true ∧ o.obsValid = some true) := by
  intro o s h
  unfold obsToSighting at h
  cases hla : o.lat with
  | none => rw [hla] at h; cases h
  | some la =>
    cases hln : o.lng with
    | none => rw [hla, hln] at h; cases h
    | some ln =>
      rw [hla, hln] at h
      obtain rfl : _ = s := Option.some.inj h
      show (o.obsReviewed.getD false && o.obsValid.getD false) = true ↔ _
      rcases o.obsReviewed with - | b <;> rcases o.obsValid with - | c <;>
        simp [Option.getD, Bool.and_eq_true]

theorem c7_confirmed_and_witness :
    (Sighting.mk (lc "Unknown") [] (lc "?") false [] (some (Dec.mk 1 0))
        (some (Dec.mk 2 0)) [] [] [] []).confirmed = true ↔
      (Obs.mk (some (Dec.mk 1 0)) (some (Dec.mk 2 0)) (some true) (some false)
          [] [] none none none none none).obsReviewed = some true ∧
      (Obs.mk (some (Dec.mk 1 0)) (some (Dec.mk 2 0)) (some true) (some false)
          [] [] none none none none none).obsValid = some true :=
  c7_confirmed_and
    (Obs.mk (some (Dec.mk 1 0)) (some (Dec.mk 2 0)) (some true) (some false)
      [] [] none none none none none)
    (Sighting.mk (lc "Unknown") [] (lc "?") false [] (some (Dec.mk 1 0))
      (some (Dec.mk 2 0)) [] [] [] [])
    (by decide)

/-- Claim C8 (confirmed): the API date string is parsed with the date-time
format first and the date-only format second; the first success is rendered
in the fixed display format, and when neither matches the date field stays
empty.  The embedded function is total, mirroring the `try/except` loop that
swallows every `ValueError`. -/
theorem c8_date_fallback :
    ∀ s : List Char,
      (∀ dt, strptime_Ymd_HM s = some dt → formatObsDt s = strftimeDisplay dt) ∧
      (strptime_Ymd_HM s = none →
        ∀ dt, strptime_Ymd s = some dt → formatObsDt s = strftimeDisplay dt) ∧
      (strptime_Ymd_HM s = none → strptime_Ymd s = none → formatObsDt s = []) := by
  intro s
  by_cases hs : s = []
  · subst hs
    refine ⟨?_, ?_, fun _ _ => rfl⟩
    · intro dt h
      simp [strptime_Ymd_HM, year4, Option.bind] at h
    · intro h1 dt h
      simp [strptime_Ymd, year4, Option.bind] at h
  · refine ⟨?_, ?_, ?_⟩
    · intro dt h
      unfold formatObsDt
      rw [if_neg hs, h]
    · intro h1 dt h
      unfold formatObsDt
      rw [if_neg hs, h1, h]
    · intro h1 h2
      unfold formatObsDt
      rw [if_neg hs, h1, h2]

theorem c8_date_fallback_witness :
    formatObsDt (lc "2026-02-05 15:08") = strftimeDisplay (PyDateTime.mk 2026 2 5 15 8) ∧
    formatObsDt (lc "not a date") = [] :=
  ⟨(c8_date_fallback (lc "2026-02-05 15:08")).1 (PyDateTime.mk 2026 2 5 15 8) (by decide),
   (c8_date_fallback (lc "not a date")).2.2 (by decide) (by decide)⟩

/-- Claim C5 (corrected): the day-count filter is anchored at the newest
*email send date* and keeps exactly the emails (hence their records) whose
send date `d` satisfies `newest - (N - 1) ≤ d ≤ newest`; emails without a
send date are dropped. -/
theorem c5_email_date_window :
    ∀ (es : List ParsedEml) (days nd : ℤ) (e : ParsedEml),
      newestDate es = some nd → e ∈ es →
      (∀ d, e.sendDate = some d →
        (e ∈ filterByDays es days ↔ nd - (days - 1) ≤ d ∧ d ≤ nd)) ∧
      (e.sendDate = none → e ∉ filterByDays es days) := by
  intro es days nd e hnd he
  constructor
  · intro d hd
    unfold filterByDays
    rw [hnd, List.mem_filter]
    constructor
    · rintro ⟨-, hp⟩
      rw [hd] at hp
      refine ⟨of_decide_eq_true hp, ?_⟩
      exact pymax_le _ nd hnd d (List.mem_filterMap.mpr ⟨e, he, hd⟩)
    · rintro ⟨h1, -⟩
      exact ⟨he, by rw [hd]; exact decide_eq_true h1⟩
  · intro hnone hmem
    unfold filterByDays at hmem
    rw [hnd, List.mem_filter] at hmem
    have := hmem.2
    rw [hnone] at this
    cases this

/-- Claim C5 counterexample: under a 3-day filter the record dated
`Feb 01, 2026` survives even though its report date is 9 days older than
the newest report date (`Feb 10, 2026`, rata die 739657): the filter tests
email send dates, not record report dates, contradicting the claim that
exactly the records whose *report date* lies in the newest 3 days
survive. -/
theorem c5_not_report_dates :
    survivingSightings ce5es 3 = [ce5rec "Feb 10, 2026", ce5rec "Feb 01, 2026"] ∧
    parse_reported_date (ce5rec "Feb 10, 2026").date = some 739657 ∧
    parse_reported_date (ce5rec "Feb 01, 2026").date = some 739648 ∧
    ¬((739657 : ℤ) - (3 - 1) ≤ 739648) :=
  ⟨by decide, by decide, by decide, by decide⟩

theorem c5_email_date_window_witness :
    (ParsedEml.mk [] (some 3)) ∈ filterByDays [ParsedEml.mk [] (some 5), ParsedEml.mk [] (some 3)] 3 ↔
      (5 : ℤ) - (3 - 1) ≤ 3 ∧ (3 : ℤ) ≤ 5 :=
  (c5_email_date_window [ParsedEml.mk [] (some 5), ParsedEml.mk [] (some 3)] 3 5
      (ParsedEml.mk [] (some 3)) (by decide) (by decide)).1 3 rfl

/-! C1: finalization of the accumulator -/

/-- Any record in the output of a step was already in the output, or is the
previous accumulator flushed under the latitude-truthiness test. -/
theorem stepLine_out_mem (st : List Sighting × Option Sighting) (raw : List Char)
    (r : Sighting) (h : r ∈ (stepLine st raw).1) :
    r ∈ st.1 ∨ (st.2 = some r ∧ latTruthy r = true) := by
  rcases st with ⟨out, cur⟩
  simp only [stepLine] at h
  cases hm : matchHeader (pyStrip raw) with
  | some hh =>
    rw [hm] at h
    simp only [flushIf] at h
    cases cur with
    | none => exact Or.inl h
    | some c =>
      have h' : r ∈ (if latTruthy c = true then out ++ [c] else out) := h
      by_cases ht : latTruthy c = true
      · rw [if_pos ht] at h'
        rcases List.mem_append.mp h' with h1 | h1
        · exact Or.inl h1
        · rw [List.mem_singleton] at h1
          subst h1
          exact Or.inr ⟨rfl, ht⟩
      · rw [if_neg ht] at h'
        exact Or.inl h'
  | none =>
    rw [hm] at h
    cases cur with
    | none => exact Or.inl h
    | some c => exact Or.inl h

/-- Latitude truthiness is an invariant of every record the line fold has
emitted. -/
theorem foldl_out_truthy (lines : List (List Char)) :
    ∀ st : List Sighting × Option Sighting, (∀ r ∈ st.1, latTruthy r = true) →
      ∀ r ∈ (lines.foldl stepLine st).1, latTruthy r = true := by
  induction lines with
  | nil => intro st h r hr; exact h r hr
  | cons l t ih =>
    intro st h r hr
    rw [List.foldl_cons] at hr
    refine ih (stepLine st l) ?_ r hr
    intro r' hr'
    rcases stepLine_out_mem st l r' hr' with h1 | ⟨-, h2⟩
    · exact h r' h1
    · exact h2

/-- Claim C1 (corrected): the accumulator is finalized exactly at a header
match or at end of input, and exactly when its latitude field holds a value
with nonzero mantissa (Python truthiness of `current.get("lat")`) — so every
output record has a nonzero latitude, and a record whose latitude is exactly
zero is dropped even though it has coordinates. -/
theorem c1_finalize_on_truthy_latitude :
    (∀ (body : List Char) (r : Sighting), r ∈ parse_sightings body →
      ∃ d, r.lat = some d ∧ d.man ≠ 0) ∧
    (∀ (st : List Sighting × Option Sighting) (raw : List Char)
      (h : List Char × List Char × Option (List Char) × Bool) (c : Sighting),
      matchHeader (pyStrip raw) = some h → st.2 = some c →
      (stepLine st raw).1 = if latTruthy c then st.1 ++ [c] else st.1) ∧
    (∀ (st : List Sighting × Option Sighting) (raw : List Char),
      matchHeader (pyStrip raw) = none → (stepLine st raw).1 = st.1) := by
  refine ⟨?_, ?_, ?_⟩
  · intro body r hr
    unfold parse_sightings at hr
    have main : ∀ r' ∈ ((splitlinesPy body).foldl stepLine ([], none)).1, latTruthy r' = true :=
      foldl_out_truthy _ _ (by intro r' h'; cases h')
    have htr : latTruthy r = true := by
      simp only [flushIf] at hr
      cases h2 : ((splitlinesPy body).foldl stepLine ([], none)).2 with
      | none => rw [h2] at hr; exact main r hr
      | some c =>
        rw [h2] at hr
        have hr' : r ∈ (if latTruthy c = true then
            ((splitlinesPy body).foldl stepLine ([], none)).1 ++ [c]
          else ((splitlinesPy body).foldl stepLine ([], none)).1) := hr
        by_cases ht : latTruthy c = true
        · rw [if_pos ht] at hr'
          rcases List.mem_append.mp hr' with h1 | h1
          · exact main r h1
          · rw [List.mem_singleton] at h1; subst h1; exact ht
        · rw [if_neg ht] at hr'
          exact main r hr'
    unfold latTruthy at htr
    cases hl : r.lat with
    | none => rw [hl] at htr; cases htr
    | some d => rw [hl] at htr; exact ⟨d, rfl, of_decide_eq_true htr⟩
  · intro st raw h c hm hc
    simp only [stepLine]
    rw [hm]
    show flushIf st = _
    simp only [flushIf]
    rw [hc]
  · intro st raw hm
    rcases st with ⟨out, cur⟩
    simp only [stepLine]
    rw [hm]
    cases cur <;> rfl

theorem c1_finalize_on_truthy_latitude_witness :
    matchHeader (pyStrip (lc "Next (Cd ef)")) =
      some (lc "Next", lc "Cd ef", none, false) ∧
    (stepLine ([], some (Sighting.mk (lc "B") (lc "Ab") (lc "?") false []
        (some (Dec.mk 125 2)) (some (Dec.mk 25 1)) [] [] [] [])) (lc "Next (Cd ef)")).1 =
      (if latTruthy (Sighting.mk (lc "B") (lc "Ab") (lc "?") false []
          (some (Dec.mk 125 2)) (some (Dec.mk 25 1)) [] [] [] []) then
        [] ++ [Sighting.mk (lc "B") (lc "Ab") (lc "?") false []
          (some (Dec.mk 125 2)) (some (Dec.mk 25 1)) [] [] [] []]
      else []) :=
  ⟨by decide,
   c1_finalize_on_truthy_latitude.2.1
     ([], some (Sighting.mk (lc "B") (lc "Ab") (lc "?") false []
       (some (Dec.mk 125 2)) (some (Dec.mk 25 1)) [] [] [] []))
     (lc "Next (Cd ef)") (lc "Next", lc "Cd ef", none, false)
     (Sighting.mk (lc "B") (lc "Ab") (lc "?") false []
       (some (Dec.mk 125 2)) (some (Dec.mk 25 1)) [] [] [] [])
     (by decide) rfl⟩

/-- Claim C1 counterexample: after the whole input is consumed the accumulator
holds coordinates latitude 0.0, longitude 10.0, yet the record is dropped —
the claim says a record accumulator that has coordinates at end of input is
appended. -/
theorem c1_zero_latitude_dropped :
    ((splitlinesPy ce1body).foldl stepLine ([], none)).2 =
      some (Sighting.mk (lc "Bird") (lc "Ab cd") (lc "?") false []
        (some (Dec.mk 0 1)) (some (Dec.mk 100 1)) [] [] [] []) ∧
    parse_sightings ce1body = [] :=
  ⟨by decide, by decide⟩

/-! C6: unmatched lines are ignored -/

/-- Claim C6 (confirmed): a line recognized by none of the header or prefix
patterns leaves the parser state untouched; the extractor itself is a total
function of the input text (a Lean `def`), so it never fails and returns a
possibly empty record list. -/
theorem c6_unmatched_line_ignored :
    ∀ (out : List Sighting) (cur : Option Sighting) (raw : List Char),
      recognizedLine cur (pyStrip raw) = false → stepLine (out, cur) raw = (out, cur) := by
  intro out cur raw h
  unfold recognizedLine at h
  simp only [Bool.or_eq_false_iff] at h
  obtain ⟨⟨⟨⟨⟨hh, h1⟩, h2⟩, h3⟩, h4⟩, h5⟩ := h
  have hmh : matchHeader (pyStrip raw) = none := by
    cases hmo : matchHeader (pyStrip raw) with
    | none => rfl
    | some t => rw [hmo] at hh; cases hh
  simp only [stepLine]
  rw [hmh]
  cases cur with
  | none => rfl
  | some c =>
    have hu : updateCur c (pyStrip raw) = c := by
      simp only at h5
      unfold updateCur
      rw [if_neg (by rw [h1]; exact Bool.false_ne_true),
          if_neg (by rw [h2]; exact Bool.false_ne_true),
          if_neg (by rw [h3]; exact Bool.false_ne_true),
          if_neg (by rw [h4]; exact Bool.false_ne_true),
          if_neg (by rw [h5]; exact Bool.false_ne_true)]
    show (out, some (updateCur c (pyStrip raw))) = (out, some c)
    rw [hu]

theorem c6_unmatched_line_ignored_witness :
    stepLine ([], some (Sighting.mk (lc "B") (lc "Ab") (lc "?") false [] none none
        [] [] [] [])) (lc "ignore this line") =
      ([], some (Sighting.mk (lc "B") (lc "Ab") (lc "?") false [] none none
        [] [] [] [])) :=
  c6_unmatched_line_ignored []
    (some (Sighting.mk (lc "B") (lc "Ab") (lc "?") false [] none none [] [] [] []))
    (lc "ignore this line") (by decide)

/-! C4 and C10: the grouper -/

theorem lookupG_addToGroups (gs : List ((ℤ × ℤ) × List Sighting)) (k k' : ℤ × ℤ)
    (s : Sighting) :
    lookupG k (addToGroups gs k' s) =
      if k' = k then lookupG k gs ++ [s] else lookupG k gs := by
  induction gs with
  | nil =>
    by_cases h : k' = k
    · subst h; simp [addToGroups, lookupG]
    · simp [addToGroups, lookupG, h]
  | cons p t ih =>
    rcases p with ⟨k0, l⟩
    by_cases h0 : k0 = k'
    · subst h0
      by_cases hk : k0 = k
      · subst hk; simp [addToGroups, lookupG]
      · simp [addToGroups, lookupG, hk]
    · by_cases hk : k0 = k
      · subst hk
        have hne : k' ≠ k0 := fun he => h0 he.symm
        simp [addToGroups, lookupG, h0, hne]
      · simp [addToGroups, lookupG, h0, hk, ih]

theorem lookupG_foldl (ss : List Sighting) :
    ∀ (gs : List ((ℤ × ℤ) × List Sighting)) (k : ℤ × ℤ),
      lookupG k (ss.foldl gstep gs) =
        lookupG k gs ++ ss.filter (fun s => decide (gkey s = k)) := by
  induction ss with
  | nil => intro gs k; simp
  | cons s t ih =>
    intro gs k
    rw [List.foldl_cons]
    show lookupG k (t.foldl gstep (addToGroups gs (gkey s) s)) = _
    rw [ih, lookupG_addToGroups, List.filter_cons]
    by_cases h : gkey s = k
    · rw [if_pos h, if_pos (by simp [h]), List.append_assoc, List.singleton_append]
    · rw [if_neg h, if_neg (by simp [h])]

/-- The record list of key `k` is exactly the input subsequence with that
rounded-coordinate key, in input order. -/
theorem lookupG_group (ss : List Sighting) (k : ℤ × ℤ) :
    lookupG k (group_sightings ss) = ss.filter (fun s => decide (gkey s = k)) := by
  have h := lookupG_foldl ss [] k
  simpa [lookupG] using h

theorem keysG_addToGroups (gs : List ((ℤ × ℤ) × List Sighting)) (k : ℤ × ℤ)
    (s : Sighting) :
    keysG (addToGroups gs k s) =
      if k ∈ keysG gs then keysG gs else keysG gs ++ [k] := by
  induction gs with
  | nil => simp [addToGroups, keysG]
  | cons p t ih =>
    rcases p with ⟨k0, l⟩
    by_cases h0 : k0 = k
    · subst h0; simp [addToGroups, keysG]
    · have hne : k ≠ k0 := fun he => h0 he.symm
      have hstep : addToGroups ((k0, l) :: t) k s = (k0, l) :: addToGroups t k s := by
        simp [addToGroups, h0]
      rw [hstep]
      show k0 :: keysG (addToGroups t k s) = _
      have hkeys : keysG ((k0, l) :: t) = k0 :: keysG t := rfl
      rw [ih, hkeys]
      by_cases hmem : k ∈ keysG t
      · rw [if_pos hmem, if_pos (List.mem_cons_of_mem _ hmem)]
      · rw [if_neg hmem, if_neg (fun hc => (List.mem_cons.mp hc).elim hne hmem)]
        rfl

theorem keysG_foldl (ss : List Sighting) :
    ∀ gs : List ((ℤ × ℤ) × List Sighting),
      keysG (ss.foldl gstep gs) =
        (ss.map gkey).foldl (fun acc k => if k ∈ acc then acc else acc ++ [k]) (keysG gs) := by
  induction ss with
  | nil => intro gs; rfl
  | cons s t ih =>
    intro gs
    rw [List.foldl_cons, List.map_cons, List.foldl_cons]
    show keysG (t.foldl gstep (addToGroups gs (gkey s) s)) = _
    rw [ih, keysG_addToGroups]

/-- Group keys appear in first-encounter order. -/
theorem keysG_group (ss : List Sighting) :
    keysG (group_sightings ss) = firstSeen (ss.map gkey) := by
  have h := keysG_foldl ss []
  simpa [keysG, firstSeen] using h

theorem keysG_nodup_addToGroups (gs : List ((ℤ × ℤ) × List Sighting)) (k : ℤ × ℤ)
    (s : Sighting) (h : (keysG gs).Nodup) : (keysG (addToGroups gs k s)).Nodup := by
  rw [keysG_addToGroups]
  by_cases hk : k ∈ keysG gs
  · rw [if_pos hk]; exact h
  · rw [if_neg hk]
    exact List.Nodup.append h (List.nodup_singleton k) (by simpa using hk)

theorem keysG_nodup (ss : List Sighting) :
    ∀ gs : List ((ℤ × ℤ) × List Sighting), (keysG gs).Nodup →
      (keysG (ss.foldl gstep gs)).Nodup := by
  induction ss with
  | nil => intro gs h; exact h
  | cons s t ih =>
    intro gs h
    rw [List.foldl_cons]
    exact ih _ (keysG_nodup_addToGroups gs (gkey s) s h)

theorem keysG_group_nodup (ss : List Sighting) : (keysG (group_sightings ss)).Nodup :=
  keysG_nodup ss [] List.nodup_nil

theorem lookupG_eq_of_mem (gs : List ((ℤ × ℤ) × List Sighting))
    (hnd : (keysG gs).Nodup) (k : ℤ × ℤ) (l : List Sighting) (hm : (k, l) ∈ gs) :
    lookupG k gs = l := by
  induction gs with
  | nil => cases hm
  | cons p t ih =>
    rcases p with ⟨k0, l0⟩
    have hnd' : k0 ∉ keysG t ∧ (keysG t).Nodup := by
      rw [keysG, List.map_cons, List.nodup_cons] at hnd
      exact hnd
    rcases List.mem_cons.mp hm with he | ht
    · obtain ⟨rfl, rfl⟩ := Prod.mk.inj he
      simp [lookupG]
    · have hkt : k ∈ keysG t := List.mem_map_of_mem Prod.fst ht
      have hk0 : k0 ≠ k := fun he => hnd'.1 (he ▸ hkt)
      simp [lookupG, hk0, ih hnd'.2 ht]

theorem lookupG_self_mem (gs : List ((ℤ × ℤ) × List Sighting)) (k : ℤ × ℤ)
    (h : lookupG k gs ≠ []) : (k, lookupG k gs) ∈ gs := by
  induction gs with
  | nil => exact absurd rfl h
  | cons p t ih =>
    rcases p with ⟨k0, l0⟩
    by_cases hk : k0 = k
    · subst hk
      simp only [lookupG, if_pos rfl]
      exact List.mem_cons_self _ _
    · simp only [lookupG, if_neg hk] at h ⊢
      exact List.mem_cons_of_mem _ (ih h)

/-- Every group's record list is the filter of the input at its key. -/
theorem group_eq_filter (ss : List Sighting) (g : (ℤ × ℤ) × List Sighting)
    (hg : g ∈ group_sightings ss) :
    g.2 = ss.filter (fun s => decide (gkey s = g.1)) := by
  rcases g with ⟨k, l⟩
  have h := lookupG_eq_of_mem (group_sightings ss) (keysG_group_nodup ss) k l hg
  rw [← h, lookupG_group]

theorem gkey_of_mem_group (ss : List Sighting) (g : (ℤ × ℤ) × List Sighting)
    (s : Sighting) (hg : g ∈ group_sightings ss) (hs : s ∈ g.2) : gkey s = g.1 := by
  rw [group_eq_filter ss g hg] at hs
  exact of_decide_eq_true (List.mem_filter.mp hs).2

theorem mem_own_group (ss : List Sighting) (s : Sighting) (hs : s ∈ ss) :
    (gkey s, lookupG (gkey s) (group_sightings ss)) ∈ group_sightings ss ∧
      s ∈ lookupG (gkey s) (group_sightings ss) := by
  have hmem : s ∈ lookupG (gkey s) (group_sightings ss) := by
    rw [lookupG_group]
    exact List.mem_filter.mpr ⟨hs, by simp⟩
  exact ⟨lookupG_self_mem _ _ (List.ne_nil_of_mem hmem), hmem⟩

/-- Claim C4 (confirmed): records are grouped by the pair of coordinates
rounded to five decimals (`gkey`, in units of ten-to-the-minus-five): equal
keys share a group, distinct keys never share one, each group lists its
records in first-seen input order, and group keys appear in
first-encounter order. -/
theorem c4_rounded_coordinate_groups :
    ∀ (ss : List Sighting) (s1 s2 : Sighting), s1 ∈ ss → s2 ∈ ss →
      ((gkey s1 = gkey s2 →
          ∃ g, g ∈ group_sightings ss ∧ s1 ∈ g.2 ∧ s2 ∈ g.2) ∧
        (gkey s1 ≠ gkey s2 →
          ∀ g, g ∈ group_sightings ss → ¬(s1 ∈ g.2 ∧ s2 ∈ g.2))) ∧
      (∀ k, lookupG k (group_sightings ss) = ss.filter (fun s => decide (gkey s = k))) ∧
      keysG (group_sightings ss) = firstSeen (ss.map gkey) := by
  intro ss s1 s2 h1 h2
  refine ⟨⟨?_, ?_⟩, fun k => lookupG_group ss k, keysG_group ss⟩
  · intro hk
    obtain ⟨hg, hm1⟩ := mem_own_group ss s1 h1
    refine ⟨(gkey s1, lookupG (gkey s1) (group_sightings ss)), hg, hm1, ?_⟩
    show s2 ∈ lookupG (gkey s1) (group_sightings ss)
    rw [lookupG_group]
    exact List.mem_filter.mpr ⟨h2, by simp [hk]⟩
  · intro hk g hg ⟨hm1, hm2⟩
    exact hk ((gkey_of_mem_group ss g s1 hg hm1).trans
      (gkey_of_mem_group ss g s2 hg hm2).symm)

theorem c4_rounded_coordinate_groups_witness :
    gkey (Sighting.mk (lc "A") (lc "Ab") (lc "?") false []
        (some (Dec.mk 4212345 5)) (some (Dec.mk (-7154321) 5)) [] [] [] []) =
      gkey (Sighting.mk (lc "B") (lc "Bc") (lc "?") false []
        (some (Dec.mk 42123451 6)) (some (Dec.mk (-71543211) 6)) [] [] [] []) ∧
    (∃ g, g ∈ group_sightings
        [Sighting.mk (lc "A") (lc "Ab") (lc "?") false []
          (some (Dec.mk 4212345 5)) (some (Dec.mk (-7154321) 5)) [] [] [] [],
         Sighting.mk (lc "B") (lc "Bc") (lc "?") false []
          (some (Dec.mk 42123451 6)) (some (Dec.mk (-71543211) 6)) [] [] [] [],
         Sighting.mk (lc "C") (lc "Cd") (lc "?") false []
          (some (Dec.mk 421234 4)) (some (Dec.mk (-715432) 4)) [] [] [] []] ∧
      Sighting.mk (lc "A") (lc "Ab") (lc "?") false []
        (some (Dec.mk 4212345 5)) (some (Dec.mk (-7154321) 5)) [] [] [] [] ∈ g.2 ∧
      Sighting.mk (lc "B") (lc "Bc") (lc "?") false []
        (some (Dec.mk 42123451 6)) (some (Dec.mk (-71543211) 6)) [] [] [] [] ∈ g.2) :=
  ⟨by decide,
   (c4_rounded_coordinate_groups
      [Sighting.mk (lc "A") (lc "Ab") (lc "?") false []
        (some (Dec.mk 4212345 5)) (some (Dec.mk (-7154321) 5)) [] [] [] [],
       Sighting.mk (lc "B") (lc "Bc") (lc "?") false []
        (some (Dec.mk 42123451 6)) (some (Dec.mk (-71543211) 6)) [] [] [] [],
       Sighting.mk (lc "C") (lc "Cd") (lc "?") false []
        (some (Dec.mk 421234 4)) (some (Dec.mk (-715432) 4)) [] [] [] []]
      (Sighting.mk (lc "A") (lc "Ab") (lc "?") false []
        (some (Dec.mk 4212345 5)) (some (Dec.mk (-7154321) 5)) [] [] [] [])
      (Sighting.mk (lc "B") (lc "Bc") (lc "?") false []
        (some (Dec.mk 42123451 6)) (some (Dec.mk (-71543211) 6)) [] [] [] [])
      (by decide) (by decide)).1.1 (by decide)⟩

theorem join_addToGroups (gs : List ((ℤ × ℤ) × List Sighting)) (k : ℤ × ℤ)
    (s : Sighting) :
    ((addToGroups gs k s).map (fun g => g.2)).flatten.Perm
      ((gs.map (fun g => g.2)).flatten ++ [s]) := by
  induction gs with
  | nil => simp [addToGroups]
  | cons p t ih =>
    rcases p with ⟨k0, l⟩
    by_cases h : k0 = k
    · subst h
      have hstep : addToGroups ((k0, l) :: t) k0 s = (k0, l ++ [s]) :: t := by
        simp [addToGroups]
      rw [hstep]
      simp only [List.map_cons, List.flatten_cons]
      rw [List.append_assoc, List.append_assoc]
      exact List.Perm.append_left l List.perm_append_comm
    · have hstep : addToGroups ((k0, l) :: t) k s = (k0, l) :: addToGroups t k s := by
        simp [addToGroups, h]
      rw [hstep]
      simp only [List.map_cons, List.flatten_cons]
      rw [List.append_assoc]
      exact List.Perm.append_left l ih

theorem join_foldl (ss : List Sighting) :
    ∀ gs : List ((ℤ × ℤ) × List Sighting),
      ((ss.foldl gstep gs).map (fun g => g.2)).flatten.Perm
        ((gs.map (fun g => g.2)).flatten ++ ss) := by
  induction ss with
  | nil => intro gs; simp
  | cons s t ih =>
    intro gs
    rw [List.foldl_cons]
    refine (ih (gstep gs s)).trans ?_
    refine (List.Perm.append_right t (join_addToGroups gs (gkey s) s)).trans ?_
    rw [List.append_assoc, List.singleton_append]

/-- The concatenation of all group lists is a permutation of the input. -/
theorem join_group (ss : List Sighting) :
    ((group_sightings ss).map (fun g => g.2)).flatten.Perm ss := by
  have h := join_foldl ss []
  simpa using h

/-- Claim C10 (confirmed): grouping partitions the input — group sizes sum to
the input length, every input record lies in a group, no record lies in two
distinct groups, and multiplicities are preserved (nothing is dropped or
duplicated). -/
theorem c10_grouping_partitions :
    ∀ ss : List Sighting,
      ((group_sightings ss).map (fun g => g.2.length)).sum = ss.length ∧
      (∀ s, s ∈ ss → ∃ g, g ∈ group_sightings ss ∧ s ∈ g.2) ∧
      (∀ (s : Sighting) (g g' : (ℤ × ℤ) × List Sighting),
        g ∈ group_sightings ss → g' ∈ group_sightings ss →
        s ∈ g.2 → s ∈ g'.2 → g = g') ∧
      (∀ s, ((group_sightings ss).map (fun g => g.2)).flatten.count s = ss.count s) := by
  intro ss
  refine ⟨?_, ?_, ?_, ?_⟩
  · have h := (join_group ss).length_eq
    rw [List.length_flatten, List.map_map] at h
    exact h
  · intro s hs
    obtain ⟨hg, hm⟩ := mem_own_group ss s hs
    exact ⟨_, hg, hm⟩
  · intro s g g' hg hg' hm hm'
    have hk : g.1 = g'.1 :=
      (gkey_of_mem_group ss g s hg hm).symm.trans (gkey_of_mem_group ss g' s hg' hm')
    have h2 : g.2 = g'.2 := by
      rw [group_eq_filter ss g hg, group_eq_filter ss g' hg', hk]
    exact Prod.ext hk h2
  · intro s
    exact (join_group ss).count_eq s

theorem c10_grouping_partitions_witness :
    ∃ g, g ∈ group_sightings [Sighting.mk (lc "A") (lc "Ab") (lc "?") false []
        (some (Dec.mk 4212345 5)) (some (Dec.mk (-7154321) 5)) [] [] [] []] ∧
      Sighting.mk (lc "A") (lc "Ab") (lc "?") false []
        (some (Dec.mk 4212345 5)) (some (Dec.mk (-7154321) 5)) [] [] [] [] ∈ g.2 :=
  (c10_grouping_partitions [Sighting.mk (lc "A") (lc "Ab") (lc "?") false []
      (some (Dec.mk 4212345 5)) (some (Dec.mk (-7154321) 5)) [] [] [] []]).2.1
    (Sighting.mk (lc "A") (lc "Ab") (lc "?") false []
      (some (Dec.mk 4212345 5)) (some (Dec.mk (-7154321) 5)) [] [] [] [])
    (by decide)

/-! C3: well-formed header lines -/

theorem dropWhile_eq_self_of_head (p : Char → Bool) (l : List Char)
    (h : ∀ c, l.head? = some c → p c = false) : l.dropWhile p = l := by
  cases l with
  | nil => rfl
  | cons c r =>
    rw [List.dropWhile_cons, h c rfl]
    simp

theorem pyStrip_eq_self (l : List Char)
    (hh : ∀ c, l.head? = some c → pySpace c = false)
    (hl : ∀ c, l.getLast? = some c → pySpace c = false) : pyStrip l = l := by
  have h1 : l.dropWhile pySpace = l := dropWhile_eq_self_of_head pySpace l hh
  have h2 : l.reverse.dropWhile pySpace = l.reverse :=
    dropWhile_eq_self_of_head pySpace l.reverse
      (fun c hc => hl c (by rwa [List.head?_reverse] at hc))
  unfold pyStrip
  rw [h1, h2, List.reverse_reverse]

theorem dropWhile_append_pySpace (l r : List Char) (h : ∃ x ∈ l, pySpace x = false) :
    (l ++ r).dropWhile pySpace = l.dropWhile pySpace ++ r := by
  induction l with
  | nil => obtain ⟨x, hx, -⟩ := h; cases hx
  | cons c t ih =>
    by_cases hc : pySpace c = true
    · rw [List.cons_append, List.dropWhile_cons, if_pos hc, List.dropWhile_cons, if_pos hc]
      apply ih
      obtain ⟨x, hx, hpx⟩ := h
      rcases List.mem_cons.mp hx with rfl | hx'
      · rw [hc] at hpx; cases hpx
      · exact ⟨x, hx', hpx⟩
    · rw [List.cons_append, List.dropWhile_cons, if_neg hc, List.dropWhile_cons, if_neg hc,
        List.cons_append]

theorem dropWhile_head_not_pySpace (l : List Char) (e : Char) (rest : List Char)
    (h : l.dropWhile pySpace = e :: rest) : pySpace e = false ∧ e ∈ l := by
  induction l generalizing rest with
  | nil => cases h
  | cons c t ih =>
    rw [List.dropWhile_cons] at h
    by_cases hc : pySpace c = true
    · rw [if_pos hc] at h
      obtain ⟨h1, h2⟩ := ih rest h
      exact ⟨h1, List.mem_cons_of_mem _ h2⟩
    · rw [if_neg hc] at h
      obtain ⟨rfl, -⟩ := List.cons.inj h
      have hcf : pySpace c = false := by
        cases hpc : pySpace c
        · rfl
        · exact absurd hpc hc
      exact ⟨hcf, List.mem_cons_self _ _⟩

theorem dropWhile_ne_nil_pySpace (l : List Char) (h : ∃ x ∈ l, pySpace x = false) :
    l.dropWhile pySpace ≠ [] := by
  induction l with
  | nil => obtain ⟨x, hx, -⟩ := h; cases hx
  | cons c t ih =>
    rw [List.dropWhile_cons]
    by_cases hc : pySpace c = true
    · rw [if_pos hc]
      apply ih
      obtain ⟨x, hx, hpx⟩ := h
      rcases List.mem_cons.mp hx with rfl | hx'
      · rw [hc] at hpx; cases hpx
      · exact ⟨x, hx', hpx⟩
    · rw [if_neg hc]
      exact List.cons_ne_nil c t

theorem takeWhile_digits (cnt t : List Char) (h : ∀ c ∈ cnt, pyDigit c = true) :
    (cnt ++ ')' :: t).takeWhile pyDigit = cnt ∧
      (cnt ++ ')' :: t).dropWhile pyDigit = ')' :: t := by
  induction cnt with
  | nil => exact ⟨rfl, rfl⟩
  | cons c r ih =>
    have hc : pyDigit c = true := h c (List.mem_cons_self c r)
    have ih' := ih (fun x hx => h x (List.mem_cons_of_mem c hx))
    constructor
    · rw [List.cons_append, List.takeWhile_cons, if_pos hc, ih'.1]
    · rw [List.cons_append, List.dropWhile_cons, if_pos hc, ih'.2]

theorem countGroup_digits (cnt t : List Char) (hne : cnt ≠ [])
    (hdig : ∀ c ∈ cnt, pyDigit c = true) :
    countGroup ('(' :: (cnt ++ ')' :: t)) = some (cnt, t) := by
  obtain ⟨htk, hdr⟩ := takeWhile_digits cnt t hdig
  obtain ⟨c0, cr, rfl⟩ : ∃ c0 cr, cnt = c0 :: cr := by
    cases cnt with
    | nil => exact absurd rfl hne
    | cons c0 cr => exact ⟨c0, cr, rfl⟩
  show (match ((c0 :: cr) ++ ')' :: t).takeWhile pyDigit,
          ((c0 :: cr) ++ ')' :: t).dropWhile pyDigit with
        | [], _ => none
        | ds, ')' :: r2 => some (ds, r2)
        | _, _ => none) = some (c0 :: cr, t)
  rw [htk, hdr]
  rfl

theorem matchCountConf_count (cnt t : List Char) (b : Bool)
    (hne : cnt ≠ []) (hdig : ∀ c ∈ cnt, pyDigit c = true)
    (ht : matchTail2 t = some b) :
    matchCountConf (' ' :: '(' :: (cnt ++ ')' :: t)) = some (some cnt, b) := by
  have hdrop : (' ' :: '(' :: (cnt ++ ')' :: t)).dropWhile pySpace =
      '(' :: (cnt ++ ')' :: t) := rfl
  unfold matchCountConf
  rw [hdrop, countGroup_digits cnt t hne hdig]
  simp [ht]

theorem matchSciTail_through (srest : List Char) (rest2 : List Char)
    (cnt : Option (List Char)) (cf : Bool)
    (hch : ∀ c ∈ srest, c ≠ ')' ∧ c ≠ '\n')
    (hcc : matchCountConf rest2 = some (cnt, cf)) :
    ∀ acc, matchSciTail acc (srest ++ ')' :: rest2) = some (acc.reverse ++ srest, cnt, cf) := by
  induction srest with
  | nil =>
    intro acc
    show matchSciTail acc (')' :: rest2) = _
    unfold matchSciTail
    rw [if_pos rfl, hcc]
    simp
  | cons c r ih =>
    intro acc
    obtain ⟨hc1, hc2⟩ := hch c (List.mem_cons_self c r)
    rw [List.cons_append]
    unfold matchSciTail
    rw [if_neg hc1, if_neg hc2, ih (fun x hx => hch x (List.mem_cons_of_mem c hx)) (c :: acc)]
    simp [List.reverse_cons, List.append_assoc]

theorem matchAfterName_success (a b : Char) (srest rest2 : List Char)
    (cnt : Option (List Char)) (cf : Bool)
    (hup : isUpperAZ a = true) (hlo : isLowerAZ b = true)
    (hch : ∀ c ∈ srest, c ≠ ')' ∧ c ≠ '\n')
    (hcc : matchCountConf rest2 = some (cnt, cf)) :
    matchAfterName (' ' :: '(' :: a :: b :: (srest ++ ')' :: rest2)) =
      some (a :: b :: srest, cnt, cf) := by
  have hdrop : (' ' :: '(' :: a :: b :: (srest ++ ')' :: rest2)).dropWhile pySpace =
      '(' :: a :: b :: (srest ++ ')' :: rest2) := rfl
  have hsp : pySpace ' ' = true := rfl
  have hst := matchSciTail_through srest rest2 cnt cf hch hcc []
  simp only [matchAfterName, hsp, hdrop, hup, hlo, if_true, Bool.and_self]
  rw [hst]
  rfl

theorem matchAfterName_fail (nm rest : List Char) (hne : nm ≠ [])
    (hpar : ∀ c ∈ nm, c ≠ '(')
    (hlast : ∀ e, nm.getLast? = some e → pySpace e = false) :
    matchAfterName (nm ++ rest) = none := by
  obtain ⟨d, nm0, rfl⟩ : ∃ d nm0, nm = d :: nm0 := by
    cases nm with
    | nil => exact absurd rfl hne
    | cons d nm0 => exact ⟨d, nm0, rfl⟩
  have hex : ∃ x ∈ d :: nm0, pySpace x = false := by
    have hne' : (d :: nm0 : List Char) ≠ [] := List.cons_ne_nil d nm0
    exact ⟨(d :: nm0).getLast hne', List.getLast_mem hne',
      hlast _ (List.getLast?_eq_getLast _ hne')⟩
  rw [List.cons_append]
  simp only [matchAfterName]
  by_cases hd : pySpace d = true
  · rw [if_pos hd]
    have hda : (d :: (nm0 ++ rest)).dropWhile pySpace =
        (d :: nm0).dropWhile pySpace ++ rest := by
      rw [← List.cons_append]
      exact dropWhile_append_pySpace (d :: nm0) rest hex
    obtain ⟨e, erest, hee⟩ : ∃ e erest, (d :: nm0).dropWhile pySpace = e :: erest := by
      cases hcase : (d :: nm0).dropWhile pySpace with
      | nil => exact absurd hcase (dropWhile_ne_nil_pySpace _ hex)
      | cons e erest => exact ⟨e, erest, rfl⟩
    obtain ⟨-, hmem⟩ := dropWhile_head_not_pySpace _ e erest hee
    have hepar : e ≠ '(' := hpar e hmem
    rw [hda, hee, List.cons_append]
    split
    · rename_i heq
      obtain ⟨rfl, -⟩ := List.cons.inj heq.symm
      exact absurd rfl hepar
    · rfl
  · rw [if_neg hd]

theorem headerSplit_through (nm : List Char) (body : List Char)
    (res : List Char × Option (List Char) × Bool)
    (hne : nm ≠ [])
    (hch : ∀ c ∈ nm, c ≠ '(' ∧ c ≠ '\n')
    (hlast : ∀ e, nm.getLast? = some e → pySpace e = false)
    (hma : matchAfterName (' ' :: '(' :: body) = some res) :
    ∀ acc, headerSplit acc (nm ++ ' ' :: '(' :: body) =
      some (acc.reverse ++ nm, res.1, res.2.1, res.2.2) := by
  induction nm with
  | nil => exact absurd rfl hne
  | cons c nm0 ih =>
    intro acc
    rw [List.cons_append]
    unfold headerSplit
    rw [if_neg (hch c (List.mem_cons_self c nm0)).2]
    cases nm0 with
    | nil =>
      rw [List.nil_append, hma]
      simp
    | cons d t =>
      have hfail : matchAfterName ((d :: t) ++ ' ' :: '(' :: body) = none :=
        matchAfterName_fail (d :: t) (' ' :: '(' :: body) (List.cons_ne_nil d t)
          (fun x hx => (hch x (List.mem_cons_of_mem c hx)).1)
          (fun e he => hlast e (by rwa [List.getLast?_cons_cons]))
      rw [hfail]
      rw [ih (List.cons_ne_nil d t) (fun x hx => hch x (List.mem_cons_of_mem c hx))
        (fun e he => hlast e (by rwa [List.getLast?_cons_cons])) (c :: acc)]
      simp [List.reverse_cons, List.append_assoc]

/-- The last character of both header-line shapes is the final `D`. -/
theorem headerLineFull_getLast (name sci cnt : List Char) :
    (headerLineFull name sci cnt).getLast? = some 'D' := by
  have e1 : headerLineFull name sci cnt =
      (name ++ ' ' :: '(' :: sci) ++ ')' :: (' ' :: '(' :: (cnt ++ ')' :: ' ' :: lc "CONFIRMED")) := by
    simp [headerLineFull, List.append_assoc]
  rw [e1, List.getLast?_append_cons]
  have e2 : (')' :: (' ' :: '(' :: (cnt ++ ')' :: ' ' :: lc "CONFIRMED"))) =
      (')' :: ' ' :: '(' :: cnt) ++ ')' :: (' ' :: lc "CONFIRMED") := by
    simp
  rw [e2, List.getLast?_append_cons]
  decide

theorem headerLineNC_getLast (name sci : List Char) :
    (headerLineNC name sci).getLast? = some 'D' := by
  have e1 : headerLineNC name sci =
      (name ++ ' ' :: '(' :: sci) ++ ')' :: (' ' :: lc "CONFIRMED") := by
    simp [headerLineNC, List.append_assoc]
  rw [e1, List.getLast?_append_cons]
  decide

/-- Claim C3 (confirmed): for every unambiguous header line
`Name (Genus species) (N) CONFIRMED` — name nonempty, free of `(` and
newline, not beginning or ending with whitespace, the whole line not a
`"- "` bullet; scientific name beginning uppercase-then-lowercase and free
of `)` and newline; count a nonempty digit run — the extractor matches the
header and starts a record with exactly these fields and `confirmed=true`;
with the count group absent the count field is the placeholder `"?"`. -/
theorem c3_header_starts_record :
    ∀ (nh : Char) (nt : List Char) (a b : Char) (srest cnt : List Char)
      (st : List Sighting × Option Sighting),
      (∀ c ∈ nh :: nt, c ≠ '(' ∧ c ≠ '\n') →
      pySpace nh = false →
      (∀ e, (nh :: nt).getLast? = some e → pySpace e = false) →
      ((lc "- ").isPrefixOf (headerLineFull (nh :: nt) (a :: b :: srest) cnt) = false) →
      ((lc "- ").isPrefixOf (headerLineNC (nh :: nt) (a :: b :: srest)) = false) →
      isUpperAZ a = true → isLowerAZ b = true →
      (∀ c ∈ a :: b :: srest, c ≠ ')' ∧ c ≠ '\n') →
      cnt ≠ [] → (∀ c ∈ cnt, pyDigit c = true) →
      matchHeader (headerLineFull (nh :: nt) (a :: b :: srest) cnt) =
        some (nh :: nt, a :: b :: srest, some cnt, true) ∧
      matchHeader (headerLineNC (nh :: nt) (a :: b :: srest)) =
        some (nh :: nt, a :: b :: srest, none, true) ∧
      (stepLine st (headerLineFull (nh :: nt) (a :: b :: srest) cnt)).2 =
        some (Sighting.mk (nh :: nt) (a :: b :: srest) cnt true [] none none [] [] [] []) ∧
      (stepLine st (headerLineNC (nh :: nt) (a :: b :: srest))).2 =
        some (Sighting.mk (nh :: nt) (a :: b :: srest) (lc "?") true [] none none
          [] [] [] []) := by
  intro nh nt a b srest cnt st hname hnh hlast hpre1 hpre2 hup hlo hsci hcne hcdig
  have hsch : ∀ c ∈ srest, c ≠ ')' ∧ c ≠ '\n' :=
    fun c hc => hsci c (List.mem_cons_of_mem a (List.mem_cons_of_mem b hc))
  have htail2 : matchTail2 (' ' :: lc "CONFIRMED") = some true := by decide
  have hccF : matchCountConf (' ' :: '(' :: (cnt ++ ')' :: ' ' :: lc "CONFIRMED")) =
      some (some cnt, true) :=
    matchCountConf_count cnt (' ' :: lc "CONFIRMED") true hcne hcdig htail2
  have hccN : matchCountConf (' ' :: lc "CONFIRMED") = some (none, true) := by decide
  have hmaF : matchAfterName (' ' :: '(' ::
      (a :: b :: (srest ++ ')' :: ' ' :: '(' :: (cnt ++ ')' :: ' ' :: lc "CONFIRMED")))) =
      some (a :: b :: srest, some cnt, true) :=
    matchAfterName_success a b srest _ (some cnt) true hup hlo hsch hccF
  have hmaN : matchAfterName (' ' :: '(' ::
      (a :: b :: (srest ++ ')' :: ' ' :: lc "CONFIRMED"))) =
      some (a :: b :: srest, none, true) :=
    matchAfterName_success a b srest _ none true hup hlo hsch hccN
  have hlineF : headerLineFull (nh :: nt) (a :: b :: srest) cnt =
      (nh :: nt) ++ ' ' :: '(' ::
        (a :: b :: (srest ++ ')' :: ' ' :: '(' :: (cnt ++ ')' :: ' ' :: lc "CONFIRMED"))) := by
    simp [headerLineFull]
  have hlineN : headerLineNC (nh :: nt) (a :: b :: srest) =
      (nh :: nt) ++ ' ' :: '(' :: (a :: b :: (srest ++ ')' :: ' ' :: lc "CONFIRMED")) := by
    simp [headerLineNC]
  have hmhF : matchHeader (headerLineFull (nh :: nt) (a :: b :: srest) cnt) =
      some (nh :: nt, a :: b :: srest, some cnt, true) := by
    unfold matchHeader
    rw [if_neg (by rw [hpre1]; exact Bool.false_ne_true), hlineF]
    have h := headerSplit_through (nh :: nt) _
      (a :: b :: srest, some cnt, true) (List.cons_ne_nil nh nt) hname hlast hmaF []
    simpa using h
  have hmhN : matchHeader (headerLineNC (nh :: nt) (a :: b :: srest)) =
      some (nh :: nt, a :: b :: srest, none, true) := by
    unfold matchHeader
    rw [if_neg (by rw [hpre2]; exact Bool.false_ne_true), hlineN]
    have h := headerSplit_through (nh :: nt) _
      (a :: b :: srest, none, true) (List.cons_ne_nil nh nt) hname hlast hmaN []
    simpa using h
  have hstripF : pyStrip (headerLineFull (nh :: nt) (a :: b :: srest) cnt) =
      headerLineFull (nh :: nt) (a :: b :: srest) cnt := by
    apply pyStrip_eq_self
    · intro c hc
      rw [hlineF] at hc
      have he : nh = c := Option.some.inj hc
      rw [← he]
      exact hnh
    · intro c hc
      rw [headerLineFull_getLast] at hc
      obtain rfl : 'D' = c := Option.some.inj hc
      decide
  have hstripN : pyStrip (headerLineNC (nh :: nt) (a :: b :: srest)) =
      headerLineNC (nh :: nt) (a :: b :: srest) := by
    apply pyStrip_eq_self
    · intro c hc
      rw [hlineN] at hc
      have he : nh = c := Option.some.inj hc
      rw [← he]
      exact hnh
    · intro c hc
      rw [headerLineNC_getLast] at hc
      obtain rfl : 'D' = c := Option.some.inj hc
      decide
  refine ⟨hmhF, hmhN, ?_, ?_⟩
  · simp only [stepLine]
    rw [hstripF, hmhF]
    show some (newRecord (nh :: nt, a :: b :: srest, some cnt, true)) = _
    unfold newRecord
    simp [hcne]
  · simp only [stepLine]
    rw [hstripN, hmhN]
    rfl

theorem c3_header_starts_record_witness :
    matchHeader (headerLineFull (lc "Painted Bunting") (lc "Passerina ciris") (lc "2")) =
      some (lc "Painted Bunting", lc "Passerina ciris", some (lc "2"), true) ∧
    (stepLine ([], none) (headerLineNC (lc "Painted Bunting") (lc "Passerina ciris"))).2 =
      some (Sighting.mk (lc "Painted Bunting") (lc "Passerina ciris") (lc "?") true []
        none none [] [] [] []) := by
  have h := c3_header_starts_record 'P' (lc "ainted Bunting") 'P' 'a' (lc "sserina ciris")
    (lc "2") ([], none) (by decide) (by decide) (by decide) (by decide) (by decide)
    (by decide) (by decide) (by decide) (by decide) (by decide)
  exact ⟨h.1, h.2.2.2⟩

end EbirdMap
